import Mathlib

/-
Verification of the BF.js interpreter (bf.js / the TypeScript BFInterpreter).

The interpreter is embedded shallowly:
* JS numbers that can be NaN are modelled by `JSVal` (an integer or NaN);
  machine arithmetic on cells is unbounded integer arithmetic, matching JS.
* JS strings are modelled as lists of UTF-16 code units (`List Nat` for the
  input/output streams, `List Char` for the script, whose characters are
  compared against the eight instruction characters).
* JS array reads out of range yield `undefined`; for every operation the
  interpreter performs on a cell (`+= n`, `=== 0`, `String.fromCharCode`),
  `undefined` behaves exactly like NaN, so both are modelled by `JSVal.nan`.
  A JS array store past the end grows the array, padding holes (which read
  as `undefined`) with `JSVal.nan`.
* Thrown exceptions are modelled by an error result that aborts the run and
  carries the data interpolated into the exception message.
* The interpreter loop is modelled with explicit fuel, since a script can
  loop forever.
-/

namespace BFjs

/-- A JS number as the interpreter uses it: an exact integer or NaN
(out-of-range `charCodeAt`, arithmetic on `undefined`). -/
inductive JSVal where
  | int : Int → JSVal
  | nan : JSVal
deriving DecidableEq

/-- JS `x + n` on a cell value: NaN propagates. -/
def jsAdd : JSVal → Int → JSVal
  | .int m, n => .int (m + n)
  | .nan, _ => .nan

/-- JS `x === 0` on a cell value: NaN (and `undefined`) compare unequal to 0. -/
def jsIsZero : JSVal → Bool
  | .int n => n == 0
  | .nan => false

/-- JS `String.fromCharCode` applies ToUint16: NaN becomes 0, an integer is
reduced mod 2^16 (the result is the code unit appended to stdOut). -/
def toUint16 : JSVal → Nat
  | .int n => (n % 65536).toNat
  | .nan => 0

/-- Read `a[n]` from a JS array: out of range gives `undefined` (≈ `.nan`). -/
def listRead : List JSVal → Nat → JSVal
  | [], _ => .nan
  | v :: _, 0 => v
  | _ :: t, n + 1 => listRead t n

/-- Store `a[n] = v` into a JS array: a store past the end grows the array,
leaving holes that read back as `undefined` (≈ `.nan`). -/
def listWrite : List JSVal → Nat → JSVal → List JSVal
  | [], 0, v => [v]
  | [], n + 1, v => .nan :: listWrite [] n v
  | _ :: t, 0, v => v :: t
  | h :: t, n + 1, v => h :: listWrite t n v

/-- `memory[p]` where the pointer is a JS number. A negative index is an
ordinary (absent) property, reading `undefined`. The interpreter only ever
dereferences nonnegative pointers, since `MoveMemoryPointer` throws before a
negative value can be stored. -/
def memRead (mem : List JSVal) (p : Int) : JSVal :=
  if p < 0 then .nan else listRead mem p.toNat

/-- `memory[p] = v` where the pointer is a JS number (negative unreachable). -/
def memWrite (mem : List JSVal) (p : Int) (v : JSVal) : List JSVal :=
  if p < 0 then mem else listWrite mem p.toNat v

/-- The per-run mutable state of the interpreter: the fields of
`BFInterpreterState` (equally, the mutable instance fields of the
instance-field `BFInterpreter` variant). -/
structure BFState where
  memoryPointer : Int
  memory : List JSVal
  stdInPointer : Nat
  loopStartIndices : List Nat
deriving DecidableEq

/-- `InitializeMemory`: `new Array(memoryWords).fill(0)`, pointers 0,
loop stack empty. -/
def BFState.init (memoryWords : Nat) : BFState :=
  { memoryPointer := 0
    memory := List.replicate memoryWords (.int 0)
    stdInPointer := 0
    loopStartIndices := [] }

/-- The exceptions the interpreter throws, carrying the data interpolated
into their messages. Note the `pointerHigh` message claims the pointer
"cannot be greater than MemoryWords - 1" although the guard that throws it
only fires for pointer > MemoryWords. -/
inductive BFError where
  | pointerLow (memoryPointer : Int) (stdInPointer : Nat) (memoryWords : Nat)
  | pointerHigh (memoryPointer : Int) (stdInPointer : Nat) (memoryWords : Nat)
  | invalidInstruction (c : Char) (pos : Nat)
deriving DecidableEq

/-- `MoveMemoryPointer(forward)`: add, then throw if the result is below 0 or
above `MemoryWords` (note: `> MemoryWords`, not `>= MemoryWords`, so the
pointer may come to rest at `MemoryWords`, one past the last index). -/
def MoveMemoryPointer (memoryWords : Nat) (st : BFState) (forward : Int) :
    Except BFError BFState :=
  let p := st.memoryPointer + forward
  if p < 0 then
    .error (.pointerLow p st.stdInPointer memoryWords)
  else if p > (memoryWords : Int) then
    .error (.pointerHigh p st.stdInPointer memoryWords)
  else
    .ok { st with memoryPointer := p }

/-- `IncrementMemoryLocation(amount)`: `this.memory[this.memoryPointer] += amount`. -/
def IncrementMemoryLocation (st : BFState) (amount : Int) : BFState :=
  { st with
    memory := memWrite st.memory st.memoryPointer
      (jsAdd (memRead st.memory st.memoryPointer) amount) }

/-- `ReadCharFromStdIn`: `charCodeAt` past the end returns NaN; the source
then has `if (charCode === NaN) charCode = 0;`, but in JS `x === NaN` is
always false, so the guard never fires and NaN is stored as-is. -/
def ReadCharFromStdIn (stdIn : List Nat) (st : BFState) : BFState :=
  let charCode : JSVal :=
    match stdIn[st.stdInPointer]? with
    | some c => .int c
    | none => .nan
  { st with
    stdInPointer := st.stdInPointer + 1
    memory := memWrite st.memory st.memoryPointer charCode }

/-- `GetCharForStdOut`: `String.fromCharCode(this.memory[this.memoryPointer])`,
modelled as the code unit of the one-character string it returns. -/
def GetCharForStdOut (st : BFState) : Nat :=
  toUint16 (memRead st.memory st.memoryPointer)

/-- `IsMemoryLocationZero`: `this.memory[this.memoryPointer] === 0`. -/
def IsMemoryLocationZero (st : BFState) : Bool :=
  jsIsZero (memRead st.memory st.memoryPointer)

/-- `BeginNewLoop(scriptIndex)`: `this.loopStartIndices.push(scriptIndex)`
(pushed at the array's end; the top of the stack is the last element). -/
def BeginNewLoop (st : BFState) (scriptIndex : Nat) : BFState :=
  { st with loopStartIndices := st.loopStartIndices ++ [scriptIndex] }

/-- `EndLoop`: `this.loopStartIndices.pop()` (a no-op on an empty array). -/
def EndLoop (st : BFState) : BFState :=
  { st with loopStartIndices := st.loopStartIndices.dropLast }

/-- `PeekLoopStartIndices`: `this.loopStartIndices[this.loopStartIndices.length - 1]`,
`undefined` (here `none`) on an empty array. -/
def PeekLoopStartIndices (st : BFState) : Option Nat :=
  st.loopStartIndices.getLast?

/-- The outcome of one trip through the `for` loop body of `InterpretInternal`:
continue at instruction index `i` with updated state and output, leave the
loop returning the output built so far, or propagate a thrown exception. -/
inductive StepResult where
  | next (i : Nat) (st : BFState) (out : List Nat)
  | halt (out : List Nat) (st : BFState)
  | fail (e : BFError)
deriving DecidableEq

/-- One trip through the `for` loop of `InterpretInternal`, at instruction
index `i`. If `i` is past the script's end the loop exits. On `]` with a
nonzero cell and an empty stack, `i` becomes `undefined + 1 = NaN` in JS, the
loop condition `NaN < code.length` is false, and the loop exits returning the
output so far — modelled as `halt`. -/
def step (code : List Char) (stdIn : List Nat) (memoryWords : Nat)
    (i : Nat) (st : BFState) (out : List Nat) : StepResult :=
  match code[i]? with
  | none => .halt out st
  | some token =>
    if token = '>' then
      match MoveMemoryPointer memoryWords st 1 with
      | .ok st' => .next (i + 1) st' out
      | .error e => .fail e
    else if token = '<' then
      match MoveMemoryPointer memoryWords st (-1) with
      | .ok st' => .next (i + 1) st' out
      | .error e => .fail e
    else if token = '+' then
      .next (i + 1) (IncrementMemoryLocation st 1) out
    else if token = '-' then
      .next (i + 1) (IncrementMemoryLocation st (-1)) out
    else if token = '.' then
      .next (i + 1) st (out ++ [GetCharForStdOut st])
    else if token = ',' then
      .next (i + 1) (ReadCharFromStdIn stdIn st) out
    else if token = '[' then
      .next (i + 1) (BeginNewLoop st i) out
    else if token = ']' then
      if IsMemoryLocationZero st then
        .next (i + 1) (EndLoop st) out
      else
        match PeekLoopStartIndices st with
        | some p => .next (p + 1) st out
        | none => .halt out st
    else
      .fail (.invalidInstruction token i)

/-- The result of a whole run: the returned stdOut string together with the
final mutable state, a thrown exception, or fuel exhaustion (the JS loop has
no bound and can run forever). -/
inductive RunResult where
  | ok (out : List Nat) (st : BFState)
  | err (e : BFError)
  | timeout
deriving DecidableEq

/-- The `for` loop of `InterpretInternal`, driven by explicit fuel (one unit
per loop iteration, including the final failed bounds test). -/
def runLoop (code : List Char) (stdIn : List Nat) (memoryWords : Nat) :
    Nat → Nat → BFState → List Nat → RunResult
  | 0, _, _, _ => .timeout
  | fuel + 1, i, st, out =>
    match step code stdIn memoryWords i st out with
    | .next i' st' out' => runLoop code stdIn memoryWords fuel i' st' out'
    | .halt o s => .ok o s
    | .fail e => .err e

/-- `Interpret` of the instance-field `BFInterpreter` variant: the run starts
from the instance's current mutable state (initialized by the constructor,
but never reset between calls) and leaves its final state in the instance. -/
def InterpretInstance (code : List Char) (stdIn : List Nat)
    (memoryWords : Nat) (fuel : Nat) (st : BFState) : RunResult :=
  runLoop code stdIn memoryWords fuel 0 st []

/-- `Interpret` of the state-object `BFInterpreter` variant: a fresh
`BFInterpreterState` is constructed for each call. -/
def Interpret (code : List Char) (stdIn : List Nat) (memoryWords : Nat)
    (fuel : Nat) : RunResult :=
  runLoop code stdIn memoryWords fuel 0 (BFState.init memoryWords) []

/-- The stdOut string a run returns to the caller, if it returned. -/
def RunResult.output : RunResult → Option (List Nat)
  | .ok o _ => some o
  | _ => none

/-- The observable side effects of one `Interpret()` call: `console.log`
writes, DOM `<div class=bfjs>` appends, and `CompleteCallback` invocations,
each recorded with the string handed over. -/
structure Effects where
  consoleWrites : List (List Nat)
  domAppends : List (List Nat)
  callbackCalls : List (List Nat)
deriving DecidableEq

/-- No side effects. -/
def Effects.empty : Effects := ⟨[], [], []⟩

/-- `WriteOutput(stdOut)`: nothing when `Quiet`; otherwise `console.log` when
no `OutputElement` is configured, else a DOM append under it. -/
def WriteOutput (quiet : Bool) (hasOutputElement : Bool)
    (stdOut : List Nat) : Effects :=
  if quiet then Effects.empty
  else if hasOutputElement then ⟨[], [stdOut], []⟩
  else ⟨[stdOut], [], []⟩

/-- `OnComplete(stdOut)`: call `CompleteCallback` with the output if one is
configured. -/
def OnComplete (hasCallback : Bool) (stdOut : List Nat) : List (List Nat) :=
  if hasCallback then [stdOut] else []

/-- The public `Interpret()` of the state-object variant, with its output
shell: run `InterpretInternal`, then `WriteOutput`, then `OnComplete`, then
return stdOut. A thrown exception propagates before any output is rendered. -/
def InterpretFull (code : List Char) (stdIn : List Nat) (memoryWords : Nat)
    (quiet hasOutputElement hasCallback : Bool) (fuel : Nat) :
    RunResult × Effects :=
  match Interpret code stdIn memoryWords fuel with
  | .ok out st =>
      (.ok out st,
        { WriteOutput quiet hasOutputElement out with
          callbackCalls := OnComplete hasCallback out })
  | r => (r, Effects.empty)

/-- Two consecutive `Interpret()` calls on one instance of the instance-field
variant: the second run starts from the state the first run left behind.
Returns the two stdOut strings when both runs return normally. -/
def InterpretInstanceTwice (code : List Char) (stdIn : List Nat)
    (memoryWords : Nat) (fuel : Nat) : Option (List Nat × List Nat) :=
  match InterpretInstance code stdIn memoryWords fuel
      (BFState.init memoryWords) with
  | .ok o1 st1 =>
    match InterpretInstance code stdIn memoryWords fuel st1 with
    | .ok o2 _ => some (o1, o2)
    | _ => none
  | _ => none

/-- Two consecutive `Interpret()` calls on one instance of the state-object
variant: each call constructs a fresh `BFInterpreterState`. -/
def InterpretStateObjectTwice (code : List Char) (stdIn : List Nat)
    (memoryWords : Nat) (fuel : Nat) : Option (List Nat × List Nat) :=
  match Interpret code stdIn memoryWords fuel with
  | .ok o1 _ =>
    match Interpret code stdIn memoryWords fuel with
    | .ok o2 _ => some (o1, o2)
    | _ => none
  | _ => none

/-- A script of `n` repetitions of the read-then-write pair `,.`. -/
def copyScript : Nat → List Char
  | 0 => []
  | n + 1 => ',' :: '.' :: copyScript n

/-- Every loop-stack entry is a valid script position holding `[`. -/
def StackInv (code : List Char) (st : BFState) : Prop :=
  ∀ p ∈ st.loopStartIndices, code[p]? = some '['

instance (code : List Char) (st : BFState) : Decidable (StackInv code st) :=
  inferInstanceAs (Decidable (∀ p ∈ st.loopStartIndices, _ = _))

/-! ### Helper lemmas about the array model and the state operations -/

theorem listRead_listWrite_eq (mem : List JSVal) (n : Nat) (v : JSVal) :
    listRead (listWrite mem n v) n = v := by
  induction mem generalizing n with
  | nil =>
    induction n with
    | zero => rfl
    | succ m ih => simpa [listWrite, listRead] using ih
  | cons h t ih =>
    cases n with
    | zero => rfl
    | succ m => simpa [listWrite, listRead] using ih m

theorem listRead_listWrite_ne (mem : List JSVal) (n m : Nat) (v : JSVal)
    (hne : n ≠ m) : listRead (listWrite mem n v) m = listRead mem m := by
  induction mem generalizing n m with
  | nil =>
    induction n generalizing m with
    | zero =>
      cases m with
      | zero => exact absurd rfl hne
      | succ m => simp [listWrite, listRead]
    | succ k ih =>
      cases m with
      | zero => simp [listWrite, listRead]
      | succ m => simpa [listWrite, listRead] using ih m (by omega)
  | cons h t ih =>
    cases n with
    | zero =>
      cases m with
      | zero => exact absurd rfl hne
      | succ m => simp [listWrite, listRead]
    | succ k =>
      cases m with
      | zero => simp [listWrite, listRead]
      | succ m => simpa [listWrite, listRead] using ih k m (by omega)

theorem memRead_memWrite_eq (mem : List JSVal) (p : Int) (v : JSVal)
    (hp : 0 ≤ p) : memRead (memWrite mem p v) p = v := by
  simp only [memRead, memWrite, if_neg (by omega : ¬p < 0)]
  exact listRead_listWrite_eq mem p.toNat v

theorem memRead_memWrite_ne (mem : List JSVal) (p j : Int) (v : JSVal)
    (hne : j ≠ p) : memRead (memWrite mem p v) j = memRead mem j := by
  by_cases hp : p < 0
  · simp [memWrite, hp]
  · by_cases hj : j < 0
    · simp [memRead, memWrite, hj]
    · simp only [memRead, memWrite, if_neg hp, if_neg hj]
      exact listRead_listWrite_ne mem p.toNat j.toNat v (by omega)

theorem MoveMemoryPointer_ok (memoryWords : Nat) (st st' : BFState)
    (forward : Int)
    (h : MoveMemoryPointer memoryWords st forward = .ok st') :
    st' = { st with memoryPointer := st.memoryPointer + forward } := by
  simp only [MoveMemoryPointer] at h
  split_ifs at h with h1 h2; simp_all

/-! ### Step-equation lemmas, one per instruction -/

theorem step_gt (code : List Char) (stdIn : List Nat) (mw i : Nat)
    (st : BFState) (out : List Nat) (h : code[i]? = some '>') :
    step code stdIn mw i st out =
      match MoveMemoryPointer mw st 1 with
      | .ok st' => .next (i + 1) st' out
      | .error e => .fail e := by
  simp [step, h]

theorem step_lt (code : List Char) (stdIn : List Nat) (mw i : Nat)
    (st : BFState) (out : List Nat) (h : code[i]? = some '<') :
    step code stdIn mw i st out =
      match MoveMemoryPointer mw st (-1) with
      | .ok st' => .next (i + 1) st' out
      | .error e => .fail e := by
  simp [step, h]

theorem step_plus (code : List Char) (stdIn : List Nat) (mw i : Nat)
    (st : BFState) (out : List Nat) (h : code[i]? = some '+') :
    step code stdIn mw i st out =
      .next (i + 1) (IncrementMemoryLocation st 1) out := by
  simp [step, h]

theorem step_minus (code : List Char) (stdIn : List Nat) (mw i : Nat)
    (st : BFState) (out : List Nat) (h : code[i]? = some '-') :
    step code stdIn mw i st out =
      .next (i + 1) (IncrementMemoryLocation st (-1)) out := by
  simp [step, h]

theorem step_dot (code : List Char) (stdIn : List Nat) (mw i : Nat)
    (st : BFState) (out : List Nat) (h : code[i]? = some '.') :
    step code stdIn mw i st out =
      .next (i + 1) st (out ++ [GetCharForStdOut st]) := by
  simp [step, h]

theorem step_comma (code : List Char) (stdIn : List Nat) (mw i : Nat)
    (st : BFState) (out : List Nat) (h : code[i]? = some ',') :
    step code stdIn mw i st out =
      .next (i + 1) (ReadCharFromStdIn stdIn st) out := by
  simp [step, h]

theorem step_open (code : List Char) (stdIn : List Nat) (mw i : Nat)
    (st : BFState) (out : List Nat) (h : code[i]? = some '[') :
    step code stdIn mw i st out =
      .next (i + 1) (BeginNewLoop st i) out := by
  simp [step, h]

theorem step_close (code : List Char) (stdIn : List Nat) (mw i : Nat)
    (st : BFState) (out : List Nat) (h : code[i]? = some ']') :
    step code stdIn mw i st out =
      if IsMemoryLocationZero st then .next (i + 1) (EndLoop st) out
      else
        match PeekLoopStartIndices st with
        | some p => .next (p + 1) st out
        | none => .halt out st := by
  simp [step, h]

theorem step_past_end (code : List Char) (stdIn : List Nat) (mw i : Nat)
    (st : BFState) (out : List Nat) (h : code[i]? = none) :
    step code stdIn mw i st out = .halt out st := by
  simp [step, h]

theorem runLoop_succ (code : List Char) (stdIn : List Nat)
    (mw fuel i : Nat) (st : BFState) (out : List Nat) :
    runLoop code stdIn mw (fuel + 1) i st out =
      match step code stdIn mw i st out with
      | .next i' st' out' => runLoop code stdIn mw fuel i' st' out'
      | .halt o s => .ok o s
      | .fail e => .err e := rfl

theorem runLoop_next {code : List Char} {stdIn : List Nat}
    {mw fuel i : Nat} {st : BFState} {out : List Nat}
    {i' : Nat} {st' : BFState} {out' : List Nat}
    (h : step code stdIn mw i st out = .next i' st' out') :
    runLoop code stdIn mw (fuel + 1) i st out =
      runLoop code stdIn mw fuel i' st' out' := by
  rw [runLoop_succ, h]

theorem copyScript_length (n : Nat) : (copyScript n).length = 2 * n := by
  induction n with
  | zero => rfl
  | succ m ih => simp [copyScript, ih]; omega

theorem copyScript_get_even (n k : Nat) (h : k < n) :
    (copyScript n)[2 * k]? = some ',' := by
  induction n generalizing k with
  | zero => omega
  | succ m ih =>
    cases k with
    | zero => rfl
    | succ j =>
      have h2 : 2 * (j + 1) = 2 * j + 1 + 1 := by omega
      rw [h2]
      show (',' :: '.' :: copyScript m)[2 * j + 1 + 1]? = some ','
      rw [List.getElem?_cons_succ, List.getElem?_cons_succ]
      exact ih j (by omega)

theorem copyScript_get_odd (n k : Nat) (h : k < n) :
    (copyScript n)[2 * k + 1]? = some '.' := by
  induction n generalizing k with
  | zero => omega
  | succ m ih =>
    cases k with
    | zero => simp [copyScript]
    | succ j =>
      have h2 : 2 * (j + 1) + 1 = 2 * j + 1 + 1 + 1 := by omega
      rw [h2]
      show (',' :: '.' :: copyScript m)[2 * j + 1 + 1 + 1]? = some '.'
      rw [List.getElem?_cons_succ, List.getElem?_cons_succ]
      exact ih j (by omega)

/-- Running the copy script from input position `k` (with the data pointer at
cell 0) copies the rest of the input onto the output. -/
theorem copy_run (stdIn : List Nat) (mw : Nat) :
    ∀ (rest : List Nat) (k : Nat) (st : BFState) (out : List Nat),
      stdIn.drop k = rest → st.stdInPointer = k → st.memoryPointer = 0 →
      (∀ c ∈ rest, c < 65536) →
      ∃ st', runLoop (copyScript stdIn.length) stdIn mw
        (2 * rest.length + 1) (2 * k) st out = .ok (out ++ rest) st' := by
  intro rest
  induction rest with
  | nil =>
    intro k st out hdrop hk hp hbound
    have hlen : stdIn.length ≤ k := List.drop_eq_nil_iff.1 hdrop
    refine ⟨st, ?_⟩
    have hget : (copyScript stdIn.length)[2 * k]? = none := by
      rw [List.getElem?_eq_none]
      rw [copyScript_length]
      omega
    simp only [List.length_nil, Nat.mul_zero, Nat.zero_add, runLoop_succ,
      step_past_end _ _ _ _ _ _ hget, List.append_nil]
  | cons c rest ih =>
    intro k st out hdrop hk hp hbound
    obtain ⟨p, mem, sp, stk⟩ := st
    simp only at hk hp
    subst hk
    subst hp
    have hklen : sp < stdIn.length := by
      have := congrArg List.length hdrop
      simp [List.length_drop] at this
      omega
    have hc : stdIn[sp]? = some c := by
      have h0 : (stdIn.drop sp)[0]? = some c := by rw [hdrop]; simp
      rwa [List.getElem?_drop, Nat.add_zero] at h0
    have hst1 : ReadCharFromStdIn stdIn ⟨0, mem, sp, stk⟩ =
        ⟨0, memWrite mem 0 (JSVal.int c), sp + 1, stk⟩ := by
      simp [ReadCharFromStdIn, hc]
    have hgc : GetCharForStdOut ⟨0, memWrite mem 0 (JSVal.int c), sp + 1, stk⟩
        = c := by
      unfold GetCharForStdOut
      rw [show memRead (memWrite mem 0 (JSVal.int c)) 0 = JSVal.int c from
        memRead_memWrite_eq mem 0 _ le_rfl]
      have := hbound c (List.mem_cons_self c rest)
      simp only [toUint16]
      omega
    have s1 : step (copyScript stdIn.length) stdIn mw (2 * sp)
        ⟨0, mem, sp, stk⟩ out =
        .next (2 * sp + 1) ⟨0, memWrite mem 0 (JSVal.int c), sp + 1, stk⟩
          out := by
      rw [step_comma _ _ _ _ _ _ (copyScript_get_even _ _ hklen), hst1]
    have s2 : step (copyScript stdIn.length) stdIn mw (2 * sp + 1)
        ⟨0, memWrite mem 0 (JSVal.int c), sp + 1, stk⟩ out =
        .next (2 * sp + 1 + 1) ⟨0, memWrite mem 0 (JSVal.int c), sp + 1, stk⟩
          (out ++ [c]) := by
      rw [step_dot _ _ _ _ _ _ (copyScript_get_odd _ _ hklen), hgc]
    have hfuel : 2 * (c :: rest).length + 1 = 2 * rest.length + 1 + 1 + 1 := by
      simp [List.length_cons]
      omega
    rw [hfuel, runLoop_next s1, runLoop_next s2]
    obtain ⟨st', hih⟩ := ih (sp + 1)
      ⟨0, memWrite mem 0 (JSVal.int c), sp + 1, stk⟩ (out ++ [c])
      (by rw [← List.drop_drop, hdrop]; simp) rfl rfl
      (fun d hd => hbound d (List.mem_cons_of_mem c hd))
    refine ⟨st', ?_⟩
    rw [show 2 * (sp + 1) = 2 * sp + 1 + 1 from by omega] at hih
    rw [hih, List.append_assoc]
    rfl

/-! ### Claim theorems -/

/-- C1: with MemoryWords=3, empty input and script `+>+>+>`, the claim says
the third `>` must raise a PointerRangeError (pointer 3 exceeds the valid
indices 0–2). Evaluating the code at exactly this input shows the run instead
returns normally with empty output and the pointer resting at 3 = MemoryWords:
the guard only throws for pointer > MemoryWords, although the exception
message itself asserts the pointer "cannot be greater than MemoryWords - 1". -/
theorem C1_boundary_pointer_not_raised :
    Interpret ['+', '>', '+', '>', '+', '>'] [] 3 7 =
      .ok [] ⟨3, [.int 1, .int 1, .int 1], 0, []⟩ := by
  decide

/-- C2: the claim says `,` on exhausted input stores 0. Evaluating
`ReadCharFromStdIn` on empty input shows the cell instead receives NaN
(`charCodeAt` past the end is NaN and the `charCode === NaN` guard in the
source never fires, since `x === NaN` is always false in JS), which differs
from 0; the input cursor does advance by 1. -/
theorem C2_exhausted_input_stores_nan :
    ReadCharFromStdIn [] (BFState.init 1) = ⟨0, [JSVal.nan], 1, []⟩ ∧
      JSVal.nan ≠ JSVal.int 0 := by
  decide

/-- C3: if the script holds a character outside the instruction set at a
position, then as soon as the dispatch loop reaches that position the run
aborts with an InvalidInstructionError carrying that character and position;
the error result carries no output string, so the output produced so far is
discarded and the caller receives only the error. -/
theorem C3_invalid_instruction_aborts (code : List Char) (stdIn : List Nat)
    (mw fuel i : Nat) (st : BFState) (out : List Nat) (tok : Char)
    (hget : code[i]? = some tok)
    (hbad : tok ∉ (['>', '<', '+', '-', '.', ',', '[', ']'] : List Char)) :
    runLoop code stdIn mw (fuel + 1) i st out =
      .err (.invalidInstruction tok i) := by
  simp only [List.mem_cons, not_or] at hbad
  obtain ⟨n1, n2, n3, n4, n5, n6, n7, n8, -⟩ := hbad
  simp [runLoop, step, hget, n1, n2, n3, n4, n5, n6, n7, n8]

/-- C3 witness: a concrete run of a script whose first character is `x`. -/
theorem C3_invalid_instruction_aborts_witness :
    runLoop ['x'] [] 1 1 0 (BFState.init 1) [] =
      .err (.invalidInstruction 'x' 0) :=
  C3_invalid_instruction_aborts ['x'] [] 1 0 0 (BFState.init 1) [] 'x'
    rfl (by decide)

/-- C4 counterexample: the claim says no state persists across runs of the
same instance and Interpret() twice returns the same output. On the
instance-field variant, whose memory, pointers and loop stack are instance
fields initialized in the constructor and never reset, the script `+.` with
MemoryWords=1 returns "\x01" on the first call but "\x02" on the second. -/
theorem C4_instance_state_persists :
    InterpretInstanceTwice ['+', '.'] [] 1 3 = some ([1], [2]) ∧
      ([1] : List Nat) ≠ [2] := by
  decide

/-- C4 amended: on the state-object variant, whose Interpret() constructs a
fresh BFInterpreterState (tape all zeros, pointers 0, stack empty) per call,
two consecutive Interpret() calls on the same instance return the same
output. -/
theorem C4_state_object_runs_agree (code : List Char) (stdIn : List Nat)
    (mw fuel : Nat) :
    (InterpretStateObjectTwice code stdIn mw fuel).map Prod.fst =
      (InterpretStateObjectTwice code stdIn mw fuel).map Prod.snd := by
  cases h : Interpret code stdIn mw fuel <;>
    simp [InterpretStateObjectTwice, h]

/-- C5: executing `]` with a non-empty loop stack: if the current cell is
zero the stack is popped and execution continues just past the `]`; otherwise
the instruction pointer is set to the top of the stack without popping (the
state is unchanged), so the next instruction executed is the one immediately
after the matching `[`. -/
theorem C5_loop_close_semantics (code : List Char) (stdIn : List Nat)
    (mw i : Nat) (st : BFState) (out : List Nat)
    (hget : code[i]? = some ']') (hne : st.loopStartIndices ≠ []) :
    (IsMemoryLocationZero st = true →
      step code stdIn mw i st out = .next (i + 1) (EndLoop st) out) ∧
    (IsMemoryLocationZero st = false →
      step code stdIn mw i st out =
        .next (st.loopStartIndices.getLast hne + 1) st out) := by
  constructor <;> intro hz <;>
    rw [step_close code stdIn mw i st out hget]
  · simp [hz]
  · simp [hz, PeekLoopStartIndices, List.getLast?_eq_getLast_of_ne_nil hne]

/-- C5 witness: a concrete `]` with stack [0]; zero cell pops and continues. -/
theorem C5_loop_close_semantics_witness :
    step [']'] [] 1 0 ⟨0, [.int 0], 0, [0]⟩ [] =
      .next 1 (EndLoop ⟨0, [.int 0], 0, [0]⟩) [] :=
  (C5_loop_close_semantics [']'] [] 1 0 ⟨0, [.int 0], 0, [0]⟩ []
    rfl (by decide)).1 (by decide)

/-- C7: Interpret() returns the produced output string to the caller
regardless of the Quiet / CompleteCallback / OutputElement settings (the
returned result always equals the core interpretation result), and with
Quiet=true and no callback it performs no console write, no DOM append and
no callback call at all. -/
theorem C7_returns_output_regardless_of_rendering (code : List Char)
    (stdIn : List Nat) (mw fuel : Nat) (q el cb : Bool) :
    (InterpretFull code stdIn mw q el cb fuel).1 =
      Interpret code stdIn mw fuel ∧
    (InterpretFull code stdIn mw true el false fuel).2 = Effects.empty := by
  cases h : Interpret code stdIn mw fuel <;>
    simp [InterpretFull, h, WriteOutput, OnComplete, Effects.empty]

/-- C8: interpretation is deterministic — two runs given the same script,
input string and memoryWords produce the same result even when every other
configuration setting (Quiet, OutputElement, CompleteCallback) differs; the
result is a pure function of (script, input, memoryWords). -/
theorem C8_deterministic (code : List Char) (stdIn : List Nat)
    (mw fuel : Nat) (q1 el1 cb1 q2 el2 cb2 : Bool) :
    (InterpretFull code stdIn mw q1 el1 cb1 fuel).1 =
      (InterpretFull code stdIn mw q2 el2 cb2 fuel).1 := by
  cases h : Interpret code stdIn mw fuel <;> simp [InterpretFull, h]

/-- C9: every execution step preserves the invariant that each element of the
loop-start stack is a valid script position holding `[`: only `[` pushes
(pushing its own, just-dispatched position), `]` either pops or leaves the
stack unchanged, and every other instruction leaves the stack untouched. -/
theorem C9_stack_holds_open_bracket_positions (code : List Char)
    (stdIn : List Nat) (mw i : Nat) (st : BFState) (out : List Nat)
    (i' : Nat) (st' : BFState) (out' : List Nat)
    (hinv : StackInv code st)
    (hstep : step code stdIn mw i st out = .next i' st' out') :
    StackInv code st' := by
  cases hget : code[i]? with
  | none =>
    rw [step_past_end code stdIn mw i st out hget] at hstep
    simp at hstep
  | some tok =>
    unfold step at hstep
    simp only [hget] at hstep
    split_ifs at hstep with h1 h2 h3 h4 h5 h6 h7 h8 h9
    · cases hm : MoveMemoryPointer mw st 1 with
      | ok s =>
        simp only [hm] at hstep
        injection hstep with hi hst hout
        subst hst
        rw [MoveMemoryPointer_ok mw st s 1 hm]
        exact fun p hp => hinv p hp
      | error e => simp [hm] at hstep
    · cases hm : MoveMemoryPointer mw st (-1) with
      | ok s =>
        simp only [hm] at hstep
        injection hstep with hi hst hout
        subst hst
        rw [MoveMemoryPointer_ok mw st s (-1) hm]
        exact fun p hp => hinv p hp
      | error e => simp [hm] at hstep
    · injection hstep with hi hst hout
      subst hst
      exact fun p hp => hinv p hp
    · injection hstep with hi hst hout
      subst hst
      exact fun p hp => hinv p hp
    · injection hstep with hi hst hout
      subst hst
      exact hinv
    · injection hstep with hi hst hout
      subst hst
      exact fun p hp => hinv p hp
    · injection hstep with hi hst hout
      subst hst
      intro p hp
      rcases List.mem_append.1 hp with hp | hp
      · exact hinv p hp
      · rw [List.mem_singleton.1 hp, hget, h7]
    · injection hstep with hi hst hout
      subst hst
      exact fun p hp => hinv p (List.dropLast_subset _ hp)
    · cases hq : PeekLoopStartIndices st with
      | some q =>
        simp only [hq] at hstep
        injection hstep with hi hst hout
        subst hst
        exact hinv
      | none => simp [hq] at hstep

/-- C9 witness: after dispatching `[` at position 0 the stack is [0], and
position 0 of the script indeed holds `[`. -/
theorem C9_stack_holds_open_bracket_positions_witness :
    StackInv ['['] ⟨0, [.int 0], 0, [0]⟩ :=
  C9_stack_holds_open_bracket_positions ['['] [] 1 0 (BFState.init 1) []
    1 ⟨0, [.int 0], 0, [0]⟩ [] (by decide) (by decide)

/-- C10: frame property of one execution step: `>`, `<`, `.`, `[`, `]` leave
the memory tape entirely unchanged, and every instruction (so in particular
`+`, `-`, `,`) leaves every cell other than the one at the current data
pointer unchanged. -/
theorem C10_memory_frame (code : List Char) (stdIn : List Nat)
    (mw i : Nat) (st : BFState) (out : List Nat)
    (i' : Nat) (st' : BFState) (out' : List Nat) (tok : Char)
    (hget : code[i]? = some tok)
    (hstep : step code stdIn mw i st out = .next i' st' out') :
    (tok ∈ (['>', '<', '.', '[', ']'] : List Char) → st'.memory = st.memory) ∧
    (∀ j : Int, j ≠ st.memoryPointer →
      memRead st'.memory j = memRead st.memory j) := by
  unfold step at hstep
  simp only [hget] at hstep
  split_ifs at hstep with h1 h2 h3 h4 h5 h6 h7 h8 h9
  · cases hm : MoveMemoryPointer mw st 1 with
    | ok s =>
      simp only [hm] at hstep
      injection hstep with hi hst hout
      subst hst
      rw [MoveMemoryPointer_ok mw st s 1 hm]
      exact ⟨fun _ => rfl, fun j _ => rfl⟩
    | error e => simp [hm] at hstep
  · cases hm : MoveMemoryPointer mw st (-1) with
    | ok s =>
      simp only [hm] at hstep
      injection hstep with hi hst hout
      subst hst
      rw [MoveMemoryPointer_ok mw st s (-1) hm]
      exact ⟨fun _ => rfl, fun j _ => rfl⟩
    | error e => simp [hm] at hstep
  · injection hstep with hi hst hout
    subst hst
    refine ⟨fun hmem => absurd hmem (by rw [h3]; decide), fun j hj => ?_⟩
    exact memRead_memWrite_ne st.memory st.memoryPointer j _ hj
  · injection hstep with hi hst hout
    subst hst
    refine ⟨fun hmem => absurd hmem (by rw [h4]; decide), fun j hj => ?_⟩
    exact memRead_memWrite_ne st.memory st.memoryPointer j _ hj
  · injection hstep with hi hst hout
    subst hst
    exact ⟨fun _ => rfl, fun j _ => rfl⟩
  · injection hstep with hi hst hout
    subst hst
    refine ⟨fun hmem => absurd hmem (by rw [h6]; decide), fun j hj => ?_⟩
    exact memRead_memWrite_ne st.memory st.memoryPointer j _ hj
  · injection hstep with hi hst hout
    subst hst
    exact ⟨fun _ => rfl, fun j _ => rfl⟩
  · injection hstep with hi hst hout
    subst hst
    exact ⟨fun _ => rfl, fun j _ => rfl⟩
  · cases hq : PeekLoopStartIndices st with
    | some q =>
      simp only [hq] at hstep
      injection hstep with hi hst hout
      subst hst
      exact ⟨fun _ => rfl, fun j _ => rfl⟩
    | none => simp [hq] at hstep

/-- C10 witness: a concrete `+` step changes only cell 0, the current cell. -/
theorem C10_memory_frame_witness :
    ((('+' : Char) ∈ (['>', '<', '.', '[', ']'] : List Char) →
        (⟨0, [JSVal.int 1], 0, []⟩ : BFState).memory =
          (BFState.init 1).memory) ∧
      (∀ j : Int, j ≠ (BFState.init 1).memoryPointer →
        memRead (⟨0, [JSVal.int 1], 0, []⟩ : BFState).memory j =
          memRead (BFState.init 1).memory j)) :=
  C10_memory_frame ['+'] [] 1 0 (BFState.init 1) [] 1
    ⟨0, [JSVal.int 1], 0, []⟩ [] '+' rfl (by decide)

/-- C6: for every input string s (a sequence of UTF-16 code units, each below
2^16 as in any JS string), interpreting a script of s.length repetitions of
the read-then-write pair `,.` with s as input outputs exactly s. -/
theorem C6_copy_script_reproduces_input (s : List Nat) (mw : Nat)
    (hs : ∀ c ∈ s, c < 65536) :
    (Interpret (copyScript s.length) s mw (2 * s.length + 1)).output =
      some s := by
  obtain ⟨st', h⟩ := copy_run s mw s 0 (BFState.init mw) [] rfl rfl rfl hs
  rw [Nat.mul_zero] at h
  unfold Interpret
  rw [h]
  simp [RunResult.output]

/-- C6 witness: the two-character input "hi" (code units 104, 105). -/
theorem C6_copy_script_reproduces_input_witness :
    (Interpret (copyScript 2) [104, 105] 1 5).output = some [104, 105] :=
  C6_copy_script_reproduces_input [104, 105] 1 (by decide)

end BFjs
